import Mathlib

/-! Verification of the poet document-validation engine and publish workflow.

The document validation engine (XML parsing with a null-on-failure contract
and image-reference validation) is modelled from the design spec, since only
its test suite is present in the sources; the publish-gating and tagging
logic (`canPush`, `getNewTag`, `_pushContent`) is embedded directly from
`client/src/push-content.ts`.
-/

namespace Poet

/-- Modelled from the spec: the structural tree a successful parse produces —
a root element with nested elements, attributes as key-value string pairs, and
an ordered list of element and text children (missing from the sources: the
server `utils` module that defines the ParseResult tree). -/
inductive XMLNode where
  | element (name : String) (attrs : List (String × String)) (children : List XMLNode)
  | text (content : String)

/-- Modelled from the spec: an immutable document snapshot for one validation
pass — logical location (a URI, used to derive a filesystem directory) and the
full text content. -/
structure Document where
  uri : String
  text : String

/-- Modelled from the spec: diagnostic severity taxonomy; unresolved image
references are fixed at error severity. -/
inductive DiagnosticSeverity where
  | error
  | warning
  | information
  | hint
deriving DecidableEq, Repr

/-- Modelled from the spec: a half-open text range, start and stop character
offsets into the document text (both convertible to line and column through the
document's position mapping). -/
structure Range where
  start : Nat
  stop : Nat
deriving DecidableEq, Repr

/-- Modelled from the spec: the engine's output unit — severity, range,
human-readable message naming the unresolved path, and a fixed taxonomy tag
identifying the diagnostic's source. -/
structure Diagnostic where
  severity : DiagnosticSeverity
  range : Range
  message : String
  source : String
deriving DecidableEq, Repr

/-- Modelled from the spec: the fixed taxonomy tag distinguishing the
image-path diagnostic family. -/
def IMAGEPATH_DIAGNOSTIC_SOURCE : String := "image-path"

/-- Drop leading whitespace characters. -/
def skipWs : List Char → List Char
  | [] => []
  | c :: cs => if c.isWhitespace then skipWs cs else c :: cs

/-- Characters allowed in an XML element or attribute name. -/
def isNameChar (c : Char) : Bool :=
  c.isAlphanum || c == '-' || c == '_' || c == ':' || c == '.'

/-- Split off the longest leading run of name characters. -/
def takeName : List Char → List Char × List Char
  | [] => ([], [])
  | c :: cs =>
    if isNameChar c then
      let (n, r) := takeName cs
      (c :: n, r)
    else ([], c :: cs)

/-- Take characters up to (and consuming) the next occurrence of `q`;
fails when `q` never occurs. -/
def takeUntil (q : Char) : List Char → Option (List Char × List Char)
  | [] => none
  | c :: cs =>
    if c == q then some ([], cs)
    else (takeUntil q cs).map (fun p => (c :: p.1, p.2))

/-- Take text content up to the next markup opener. -/
def takeText : List Char → List Char × List Char
  | [] => ([], [])
  | c :: cs =>
    if c == '<' then ([], c :: cs)
    else
      let (t, r) := takeText cs
      (c :: t, r)

/-- Modelled from the spec: attribute-list parsing under standard XML
well-formedness rules — zero or more `name="value"` pairs (single or double
quoted), stopping before the tag close. The fuel argument bounds recursion. -/
def parseAttrs : Nat → List Char → Option (List (String × String) × List Char)
  | 0, _ => none
  | fuel + 1, input =>
    match skipWs input with
    | [] => some ([], [])
    | c :: cs =>
      if c == '/' || c == '>' then some ([], c :: cs)
      else if isNameChar c then
        let (nameCs, rest) := takeName (c :: cs)
        match skipWs rest with
        | '=' :: rest2 =>
          match skipWs rest2 with
          | q :: rest3 =>
            if q == '"' || q == Char.ofNat 39 then
              match takeUntil q rest3 with
              | some (v, rest4) =>
                (parseAttrs fuel rest4).map
                  (fun p => ((String.mk nameCs, String.mk v) :: p.1, p.2))
              | none => none
            else none
          | [] => none
        | _ => none
      else none

mutual

/-- Modelled from the spec: parse a sequence of sibling nodes (elements and
text) in document order, stopping at a closing tag or at end of input. -/
def parseNodes : Nat → List Char → Option (List XMLNode × List Char)
  | 0, _ => none
  | fuel + 1, input =>
    match input with
    | [] => some ([], [])
    | '<' :: '/' :: rest => some ([], '<' :: '/' :: rest)
    | '<' :: rest =>
      match parseElement fuel rest with
      | none => none
      | some (node, rest2) =>
        (parseNodes fuel rest2).map (fun p => (node :: p.1, p.2))
    | c :: cs =>
      let (t, rest) := takeText (c :: cs)
      (parseNodes fuel rest).map (fun p => (XMLNode.text (String.mk t) :: p.1, p.2))

/-- Modelled from the spec: parse one element whose opener `<` has already been
consumed — name, attributes, then either a self-close or children followed by a
matching end tag; a mismatched end-tag name fails the parse as a whole. -/
def parseElement : Nat → List Char → Option (XMLNode × List Char)
  | 0, _ => none
  | fuel + 1, input =>
    let (nameCs, rest) := takeName input
    if nameCs.isEmpty then none
    else
      match parseAttrs (rest.length + 1) rest with
      | none => none
      | some (attrs, rest2) =>
        match rest2 with
        | '/' :: '>' :: rest3 => some (XMLNode.element (String.mk nameCs) attrs [], rest3)
        | '>' :: rest3 =>
          match parseNodes fuel rest3 with
          | none => none
          | some (children, rest4) =>
            match rest4 with
            | '<' :: '/' :: rest5 =>
              let (closeName, rest6) := takeName rest5
              if closeName == nameCs then
                match skipWs rest6 with
                | '>' :: rest7 =>
                  some (XMLNode.element (String.mk nameCs) attrs children, rest7)
                | _ => none
              else none
            | _ => none
        | _ => none

end

/-- Modelled from the spec: `parse(text) -> ParseResult` — attempt to build a
structural tree under standard XML well-formedness rules; on any violation
(mismatched tags, unterminated markup, empty text, no root element, trailing
garbage) the parse fails as a whole and the failure sentinel `none` is
returned, never an exception. -/
def parse (text : String) : Option XMLNode :=
  match skipWs text.data with
  | '<' :: rest =>
    match parseElement (text.length + 1) rest with
    | some (node, r) =>
      match skipWs r with
      | [] => some node
      | _ => none
    | none => none
  | _ => none

/-- Modelled from the spec: the server's `parseXMLString` entry point — a pure
function of the document's text, returning the tree or the failure sentinel. -/
def parseXMLString (document : Document) : Option XMLNode :=
  parse document.text

/-- Split a character list at every occurrence of the separator, like
`String.splitOn` with a one-character separator. -/
def splitOnChar (sep : Char) : List Char → List (List Char)
  | [] => [[]]
  | c :: cs =>
    if c == sep then [] :: splitOnChar sep cs
    else
      match splitOnChar sep cs with
      | [] => [[c]]
      | g :: gs => (c :: g) :: gs

/-- The `/`-separated nonempty segments of a path string. -/
def pathSegments (p : String) : List String :=
  ((splitOnChar '/' p.data).map String.mk).filter (fun s => s ≠ "")

/-- Modelled from the spec: the path segments of the filesystem path denoted by
a document URI — the `file://` scheme marker is stripped and the path is split
at separators. -/
def fsSegments (uri : String) : List String :=
  let p :=
    if "file://".data.isPrefixOf uri.data then String.mk (uri.data.drop 7) else uri
  pathSegments p

/-- Modelled from the spec: the document's base directory — the directory
containing the document, derived from its logical location. -/
def docBaseDir (document : Document) : List String :=
  (fsSegments document.uri).dropLast

/-- Modelled from the spec: resolve a relative path against a base directory,
interpreting `..` as stepping up one directory and `.` as staying, yielding an
absolute path as a segment list. -/
def resolvePath (base : List String) (raw : String) : List String :=
  ((splitOnChar '/' raw.data).map String.mk).foldl
    (fun acc seg =>
      if seg == ".." then acc.dropLast
      else if seg == "." || seg == "" then acc
      else acc ++ [seg])
    base

/-- Fixed element name of a media-reference element. -/
def imageElementName : String := "image"

/-- Fixed source-path attribute name of a media-reference element. -/
def imageSourceAttr : String := "src"

mutual

/-- Modelled from the spec: extraction — walk the tree depth-first pre-order
and collect the raw path of every element that is a media-reference element
and carries the source-path attribute; reference elements lacking the
attribute are silently skipped. -/
def collectCandidates : XMLNode → List String
  | XMLNode.text _ => []
  | XMLNode.element name attrs children =>
    (if name == imageElementName then
      match attrs.lookup imageSourceAttr with
      | some v => [v]
      | none => []
    else []) ++ collectCandidatesList children

/-- Candidate extraction over a child list, preserving document order. -/
def collectCandidatesList : List XMLNode → List String
  | [] => []
  | n :: ns => collectCandidates n ++ collectCandidatesList ns

end

/-- Index of the first occurrence of `needle` as a contiguous sublist of
`hay`, or `none` when it does not occur. -/
def firstIndexOf (needle : List Char) : List Char → Option Nat
  | [] => if needle.isEmpty then some 0 else none
  | c :: cs =>
    if needle.isPrefixOf (c :: cs) then some 0
    else (firstIndexOf needle cs).map (· + 1)

/-- Modelled from the spec: re-location — build the diagnostic for one
unresolved candidate: locate the first occurrence of the raw path string in
the original document text, range is the half-open span covering it, severity
error, the fixed message template, and the image-path source tag. -/
def imageDiagnostic (docText : String) (raw : String) : Diagnostic :=
  let start := (firstIndexOf raw.data docText.data).getD 0
  ⟨DiagnosticSeverity.error,
   ⟨start, start + raw.length⟩,
   "Image file " ++ raw ++ " doesn\x27t exist!",
   IMAGEPATH_DIAGNOSTIC_SOURCE⟩

/-- Modelled from the spec: `validateImagePaths(document, parseResult)` — the
image-reference validator (missing from the sources: the server `utils`
module). The filesystem is the injected existence predicate `fs` over
resolved absolute paths. Returns `[]` for the failure sentinel; otherwise one
error diagnostic per candidate whose resolved path does not exist, in
document order. -/
def validateImagePaths (fs : List String → Bool) (document : Document)
    (xmlData : Option XMLNode) : List Diagnostic :=
  match xmlData with
  | none => []
  | some root =>
    (collectCandidates root).filterMap
      (fun raw =>
        if fs (resolvePath (docBaseDir document) raw) then none
        else some (imageDiagnostic document.text raw))

/-- Modelled from the spec: the whole engine for one validation pass —
raw text through the Parser, its result through the Validator. -/
def engine (fs : List String → Bool) (document : Document) : List Diagnostic :=
  validateImagePaths fs document (parseXMLString document)

/-- The candidate references of a document's parse result (empty on parse
failure). -/
def candidatesOfDoc (document : Document) : List String :=
  match parseXMLString document with
  | none => []
  | some root => collectCandidates root

/-! Concrete inputs from the server test suite (`server.test.ts`). -/

/-- URI the validator tests create their documents with. -/
def testUri : String := "file:///modules/m12345/index.cnxml"

/-- Mocked filesystem of the validator tests: only `/media/image1.jpg`
exists. -/
def mockFs : List String → Bool := fun p => p == ["media", "image1.jpg"]

/-- Ill-formed input of the parser failure test. -/
def badXMLDoc : Document :=
  ⟨"", "\n      <document></documentt>\n    "⟩

/-- Well-formed input with no image references. -/
def emptyContentDoc : Document :=
  ⟨testUri, "\n      <document>\n        <content></content>\n      </document>\n    "⟩

/-- Input referencing one existing and two non-existing media files. -/
def mixedDoc : Document :=
  ⟨testUri,
   "\n      <document>\n        <content>\n          <image src=\"../../media/image1.jpg\" />\n          <image src=\"../../media/image2.jpg\" />\n          <image src=\"../../media/image3.jpg\" />\n        </content>\n      </document>\n    "⟩

/-- Input with one resolvable image and one attribute-less image element. -/
def incompleteDoc : Document :=
  ⟨testUri,
   "\n      <document>\n        <content>\n          <image src=\"../../media/image1.jpg\" />\n          <image />\n        </content>\n      </document>\n    "⟩

/-! Embedding of `client/src/push-content.ts`. -/

/-- The content directories the push command stages. -/
def AllowedContentDirs : List String := ["modules", "collections", "media"]

/-- Tagging modes offered by the tagging dialog. -/
inductive Tag where
  | release
  | candidate
deriving DecidableEq, Repr

namespace DiagnosticSource

/-- Diagnostic source tag of the stricter secondary grammar check. -/
def xml : String := "xml"

/-- Diagnostic source tag of the markup/image validation family. -/
def cnxml : String := "cnxml"

end DiagnosticSource

namespace PushValidationModal

/-- Modal message shown when cnxml errors block a push. -/
def cnxmlErrorMsg : String :=
  "There are outstanding validation errors that must be resolved before pushing is allowed."

/-- Modal message shown when only schema (xml) errors are outstanding. -/
def xmlErrorMsg : String :=
  "There are outstanding schema errors. Are you sure you want to push these changes?"

/-- The modal item the user picks to push despite schema errors. -/
def xmlErrorIgnoreItem : String := "Yes, I know more than you"

end PushValidationModal

/-- Embedding of `canPush` from `push-content.ts`. The error map is embedded by its key
list (`errorsBySource.has s` is `errorsBySource.contains s`); the modal
interaction of `showErrorMessage` is embedded by `selectedItem`, the item the
user picked (or `none` for dismissal). With a cnxml entry the push is blocked
outright; with only an xml entry it is allowed exactly when the user picked
the ignore item; otherwise it is allowed. -/
def canPush (errorsBySource : List String) (selectedItem : Option String) : Bool :=
  if errorsBySource.contains DiagnosticSource.cnxml then false
  else if errorsBySource.contains DiagnosticSource.xml then
    selectedItem == some PushValidationModal.xmlErrorIgnoreItem
  else true

/-- Ref types of the git API (`RefType` in `git-api/git`). -/
inductive RefType where
  | head
  | remoteHead
  | tag
deriving DecidableEq, Repr

/-- A git ref as used by `getNewTag`: its type, optional name, optional
commit. -/
structure Ref where
  type : RefType
  name : Option String
  commit : Option String
deriving DecidableEq, Repr

/-- The tag-name pattern of `getNewTag`: `/^\d+$/` in release mode, `/^\d+rc$/`
in release-candidate mode — one or more digits, followed by `rc` exactly in
candidate mode. -/
def tagNamePattern (release : Bool) (s : String) : Bool :=
  let ds := s.data.takeWhile Char.isDigit
  let rest := s.data.drop ds.length
  !ds.isEmpty && (if release then rest.isEmpty else rest == ['r', 'c'])

/-- Embedding of `name.replace('rc', '')`: remove the first occurrence of `rc`. -/
def replaceFirstRC (s : String) : String :=
  match firstIndexOf ['r', 'c'] s.data with
  | none => s
  | some i => String.mk (s.data.take i ++ s.data.drop (i + 2))

/-- Embedding of `Number(...)` on an all-digit string: its decimal value. -/
def digitsToNat (s : String) : Nat :=
  s.data.foldl (fun acc c => acc * 10 + (c.toNat - 48)) 0

/-- The numeric value `getNewTag` reads off one valid tag ref: the name with
`rc` removed, as a number (the `expect(ref.name, '')` default is modelled by
`getD`; a valid tag always has a name). -/
def tagRefNumber (ref : Ref) : Nat :=
  digitsToNat (replaceFirstRC (ref.name.getD ""))

/-- The loop of `getNewTag`: walk the valid tags in order; as soon as one
points at the head commit, return `undefined` (`none`); otherwise push every
tag's numeric value. -/
def collectTagNums (head : Ref) : List Ref → Option (List Nat)
  | [] => some []
  | ref :: refs =>
    if ref.commit == head.commit then none
    else (collectTagNums head refs).map (fun ns => tagRefNumber ref :: ns)

/-- The valid-tag filter of `getNewTag`: tag refs whose name matches the
mode's pattern (a missing name never matches, as `regex.test` on a coerced
`undefined` fails both patterns). -/
def validTagsOf (refs : List Ref) (release : Bool) : List Ref :=
  refs.filter (fun ref =>
    ref.type == RefType.tag &&
      (match ref.name with
       | none => false
       | some s => tagNamePattern release s))

/-- Embedding of `getNewTag` from `push-content.ts`; `refs` is `repo.state.refs`. Returns
`undefined` (`none`) when a valid tag of the requested mode already points at
the head commit; otherwise one plus the maximum collected tag number
(`Math.max(...tags)`, or 0 with no valid tags), with `rc` appended in
candidate mode. -/
def getNewTag (refs : List Ref) (tagMode : Tag) (head : Ref) : Option String :=
  let release := tagMode == Tag.release
  let validTags := validTagsOf refs release
  match collectTagNums head validTags with
  | none => none
  | some tags =>
    let previousVersion := if tags.length > 0 then tags.foldl Nat.max 0 else 0
    some (toString (previousVersion + 1) ++ (if release then "" else "rc"))

/-- Embedding of `validateMessage` from `push-content.ts`. -/
def validateMessage (message : String) : Option String :=
  if message.length > 2 then none else some "Too short!"

/-- One observable action of a `_pushContent` run, in order: the git
operations it invokes and the messages it reports. `threw` marks an exception
escaping `_pushContent` (a rethrown commit error or a failed `expect`). -/
inductive GitEvent where
  | gitAdd (uris : List String)
  | commit (message : String)
  | pull
  | push
  | pushSetUpstream (branch : String)
  | errorShown (msg : String)
  | infoShown (msg : String)
  | threw
deriving DecidableEq, Repr

/-- The error shape `_pushContent` catches: optional captured stdout, optional
git error code, and a message. -/
structure GitError where
  stdout : Option String
  gitErrorCode : Option String
  message : String
deriving DecidableEq, Repr

/-- Outcome of an awaited git operation: success or a thrown `GitError`. -/
inductive GitOutcome where
  | ok
  | err (e : GitError)
deriving DecidableEq, Repr

/-- The constant `GitErrorCodes.Conflict` from the git API. -/
def GitErrorCodes.Conflict : String := "Conflict"

/-- The HEAD ref as `_pushContent` reads it: optional branch name and optional
upstream. -/
structure Head where
  name : Option String
  upstream : Option Unit
deriving DecidableEq, Repr

/-- Embedding of `path.join(root, dir)` for the content-directory paths. -/
def pathJoin (root dir : String) : String := root ++ "/" ++ dir

/-- Whether `stdout` contains the given text (`String.prototype.includes`). -/
def containsSubstr (needle hay : String) : Bool :=
  (firstIndexOf needle.data hay.data).isSome

/-- The pull/push `catch` block of `_pushContent`: rethrow without a git error
code, report a conflict specially, otherwise report the failure. -/
def pullPushCatch (e : GitError) : GitEvent :=
  match e.gitErrorCode with
  | none => GitEvent.threw
  | some c =>
    if c == GitErrorCodes.Conflict then GitEvent.errorShown "Content conflict, please resolve."
    else GitEvent.errorShown ("Push failed: " ++ e.message)

/-- The commit-succeeded tail of `_pushContent`: read HEAD and its branch name
(`expect` throws on `undefined`), then pull+push with an upstream or push with
set-upstream without one, reporting success or the caught failure. -/
def afterCommit (head : Option Head) (pullOutcome pushOutcome : GitOutcome) : List GitEvent :=
  match head with
  | none => [GitEvent.threw]
  | some h =>
    match h.name with
    | none => [GitEvent.threw]
    | some branchName =>
      match h.upstream with
      | some _ =>
        GitEvent.pull ::
          (match pullOutcome with
           | GitOutcome.err e => [pullPushCatch e]
           | GitOutcome.ok =>
             GitEvent.push ::
               (match pushOutcome with
                | GitOutcome.err e => [pullPushCatch e]
                | GitOutcome.ok => [GitEvent.infoShown "Successful content push."]))
      | none =>
        GitEvent.pushSetUpstream branchName ::
          (match pushOutcome with
           | GitOutcome.err e => [pullPushCatch e]
           | GitOutcome.ok => [GitEvent.infoShown "Successful content push."])

/-- The commit `catch` block of `_pushContent`: rethrow when no stdout was
captured; report "nothing to commit" specially; otherwise report the failure
with the git error code when present. -/
def commitCatch (e : GitError) : List GitEvent :=
  match e.stdout with
  | none => [GitEvent.threw]
  | some out =>
    if containsSubstr "nothing to commit" out then
      [GitEvent.errorShown "No changes to push."]
    else
      [GitEvent.errorShown
        ("Push failed: " ++ (match e.gitErrorCode with
                             | none => e.message
                             | some c => c))]

/-- Embedding of `_pushContent` from `push-content.ts` as the trace of git operations and
reports of one run. `dirExists` is `directoryExistsAt`; `commitMessage` is
what `_getMessage` resolved to; `commitOutcome`, `pullOutcome`, `pushOutcome`
are the outcomes of the awaited git commands; `head` is `repo.state.HEAD`.
The existing content directories are staged; with none, an error is reported
and the run ends. A null message ends the run before any commit. Pull/push
run only in the commit-succeeded branch. -/
def _pushContent (rootPath : String) (dirExists : String → Bool)
    (commitMessage : Option String) (commitOutcome : GitOutcome)
    (head : Option Head) (pullOutcome pushOutcome : GitOutcome) : List GitEvent :=
  let maybeContentDirs := AllowedContentDirs.map (pathJoin rootPath)
  let validContentUris := maybeContentDirs.filter dirExists
  if validContentUris.length == 0 then
    [GitEvent.errorShown "No expected content directories exist!"]
  else
    GitEvent.gitAdd validContentUris ::
      (match commitMessage with
       | none => []
       | some msg =>
         GitEvent.commit msg ::
           (match commitOutcome with
            | GitOutcome.err e => commitCatch e
            | GitOutcome.ok => afterCommit head pullOutcome pushOutcome))

/-- Whether an event is an invocation of `repo.pull` or `repo.push`. -/
def isPullOrPush : GitEvent → Bool
  | GitEvent.pull => true
  | GitEvent.push => true
  | GitEvent.pushSetUpstream _ => true
  | _ => false

/-! Theorems. -/

/-- A filterMap whose function drops exactly the entries satisfying a guard is
the map over the filtered list. -/
theorem filterMap_guard_eq_map_filter (p : α → Bool) (f : α → β) (l : List α) :
    l.filterMap (fun a => if p a then none else some (f a)) =
      (l.filter (fun a => !p a)).map f := by
  induction l with
  | nil => rfl
  | cons a l ih =>
    by_cases h : p a = true <;>
      simp [List.filterMap_cons, List.filter_cons, h, ih]

/-- Candidate extraction distributes over list append. -/
theorem collectCandidatesList_append (a b : List XMLNode) :
    collectCandidatesList (a ++ b) =
      collectCandidatesList a ++ collectCandidatesList b := by
  induction a with
  | nil => rfl
  | cons n ns ih => simp [collectCandidatesList, ih]

/-- C2: for text violating XML well-formedness (the test's
`<document></documentt>` input), parse returns the failure sentinel `none`
rather than throwing, and `validateImagePaths` applied to the failure sentinel
returns the empty sequence for every document and filesystem. -/
theorem parse_failure_propagation :
    parseXMLString badXMLDoc = none ∧
    ∀ (fs : List String → Bool) (document : Document),
      validateImagePaths fs document none = [] :=
  ⟨rfl, fun _ _ => rfl⟩

/-- C7: the well-formed text `<document><content></content></document>`
parses successfully (a tree, not the failure sentinel), and
`validateImagePaths` on that result returns the empty diagnostic list for
every filesystem, there being no candidate references. -/
theorem wellformed_empty_document :
    (parseXMLString emptyContentDoc).isSome = true ∧
    ∀ fs : List String → Bool,
      validateImagePaths fs emptyContentDoc (parseXMLString emptyContentDoc) = [] :=
  ⟨rfl, fun _ => rfl⟩

set_option maxRecDepth 40000 in
/-- C1: for the document referencing one existing (`image1`) and two
non-existing (`image2`, `image3`) media files, `validateImagePaths` returns
exactly two diagnostics, in document order, each with severity error, the
image-path source constant, the message `Image file <rawPath> doesn't exist!`,
and range the half-open span `[start, start + 22)` at the first occurrence of
the raw path in the original text (offsets 107 and 156). -/
theorem mixed_document_diagnostics :
    validateImagePaths mockFs mixedDoc (parseXMLString mixedDoc) =
      [⟨DiagnosticSeverity.error, ⟨107, 107 + 22⟩,
        "Image file ../../media/image2.jpg doesn\x27t exist!",
        IMAGEPATH_DIAGNOSTIC_SOURCE⟩,
       ⟨DiagnosticSeverity.error, ⟨156, 156 + 22⟩,
        "Image file ../../media/image3.jpg doesn\x27t exist!",
        IMAGEPATH_DIAGNOSTIC_SOURCE⟩] ∧
    firstIndexOf ("../../media/image2.jpg".data) mixedDoc.text.data = some 107 ∧
    firstIndexOf ("../../media/image3.jpg".data) mixedDoc.text.data = some 156 ∧
    ("../../media/image2.jpg".length = 22 ∧ "../../media/image3.jpg".length = 22) :=
  ⟨by decide, by decide, by decide, by decide, by decide⟩

/-- C4: `validateImagePaths` is total — it always returns a (possibly empty)
diagnostic list — and the result is empty exactly when the parse result is the
failure sentinel, or there are zero candidates, or every candidate's resolved
path exists. -/
theorem validateImagePaths_nil_iff (fs : List String → Bool) (document : Document)
    (xmlData : Option XMLNode) :
    validateImagePaths fs document xmlData = [] ↔
      (xmlData = none ∨ ∃ root, xmlData = some root ∧
        ∀ raw ∈ collectCandidates root,
          fs (resolvePath (docBaseDir document) raw) = true) := by
  cases xmlData with
  | none => simp [validateImagePaths]
  | some root =>
    simp only [validateImagePaths, List.filterMap_eq_nil_iff]
    constructor
    · intro h
      refine Or.inr ⟨root, rfl, fun raw hm => ?_⟩
      by_cases hb : fs (resolvePath (docBaseDir document) raw) = true
      · exact hb
      · have := h raw hm
        simp [hb] at this
    · rintro (h | ⟨r, hr, h⟩)
      · exact absurd h (by simp)
      · intro raw hm
        cases hr
        simp [h raw hm]

/-- C5: for every document and tree, the diagnostic sequence is exactly the
diagnostic constructor mapped over the unresolved candidates of the
depth-first pre-order traversal, so it has one diagnostic per unresolved
candidate and preserves their document order. -/
theorem validateImagePaths_order_preservation (fs : List String → Bool)
    (document : Document) (root : XMLNode) :
    validateImagePaths fs document (some root) =
      ((collectCandidates root).filter
        (fun raw => !fs (resolvePath (docBaseDir document) raw))).map
        (imageDiagnostic document.text) ∧
    (validateImagePaths fs document (some root)).length =
      ((collectCandidates root).filter
        (fun raw => !fs (resolvePath (docBaseDir document) raw))).length := by
  have h := filterMap_guard_eq_map_filter
    (fun raw => fs (resolvePath (docBaseDir document) raw))
    (imageDiagnostic document.text) (collectCandidates root)
  have hv : validateImagePaths fs document (some root) =
      (collectCandidates root).filterMap
        (fun raw =>
          if fs (resolvePath (docBaseDir document) raw) then none
          else some (imageDiagnostic document.text raw)) := rfl
  rw [hv, h]
  exact ⟨rfl, List.length_map _ _⟩

/-- C3: the engine is a pure function of exactly the document text, the
document location, and the filesystem existence of each candidate's resolved
path: two runs on documents with identical text and location, against
filesystems agreeing on every candidate's resolved path, produce identical
diagnostic sequences. -/
theorem engine_deterministic (doc₁ doc₂ : Document) (fs₁ fs₂ : List String → Bool)
    (htext : doc₁.text = doc₂.text) (hloc : doc₁.uri = doc₂.uri)
    (hfs : ∀ raw ∈ candidatesOfDoc doc₁,
      fs₁ (resolvePath (docBaseDir doc₁) raw) =
        fs₂ (resolvePath (docBaseDir doc₁) raw)) :
    engine fs₁ doc₁ = engine fs₂ doc₂ := by
  have hd : doc₁ = doc₂ := by
    cases doc₁
    cases doc₂
    cases htext
    cases hloc
    rfl
  subst hd
  unfold engine validateImagePaths
  cases hp : parseXMLString doc₁ with
  | none => rfl
  | some root =>
    have hc : candidatesOfDoc doc₁ = collectCandidates root := by
      simp [candidatesOfDoc, hp]
    rw [hc] at hfs
    exact List.filterMap_congr (fun raw hm => by rw [hfs raw hm])

set_option maxRecDepth 40000 in
/-- Witness for C3 at the mixed test document, with a second filesystem that
differs only away from the candidates' resolved paths. -/
theorem engine_deterministic_witness :
    engine mockFs mixedDoc =
      engine (fun p => p == ["media", "image1.jpg"] || p == ["private", "other.png"])
        mixedDoc :=
  engine_deterministic mixedDoc mixedDoc mockFs
    (fun p => p == ["media", "image1.jpg"] || p == ["private", "other.png"])
    rfl rfl (by decide)

set_option maxRecDepth 40000 in
set_option maxHeartbeats 2000000 in
/-- C6: a reference-type element lacking the source-path attribute produces no
candidate and no diagnostic and leaves the diagnostics of its siblings
unchanged; concretely, the test document with one resolvable image and one
attribute-less image element validates to the empty list. -/
theorem incomplete_image_tolerance (fs : List String → Bool) (document : Document)
    (nm : String) (attrs attrs₀ : List (String × String)) (l₁ l₂ : List XMLNode)
    (h : attrs₀.lookup imageSourceAttr = none) :
    (validateImagePaths fs document
        (some (XMLNode.element nm attrs
          (l₁ ++ XMLNode.element imageElementName attrs₀ [] :: l₂))) =
      validateImagePaths fs document
        (some (XMLNode.element nm attrs (l₁ ++ l₂)))) ∧
    validateImagePaths mockFs incompleteDoc (parseXMLString incompleteDoc) = [] := by
  constructor
  · have hc : collectCandidates (XMLNode.element imageElementName attrs₀ []) = [] := by
      simp [collectCandidates, collectCandidatesList, h]
    have hl : collectCandidatesList
        (l₁ ++ XMLNode.element imageElementName attrs₀ [] :: l₂) =
        collectCandidatesList (l₁ ++ l₂) := by
      rw [collectCandidatesList_append, collectCandidatesList_append]
      have h2 : collectCandidatesList (XMLNode.element imageElementName attrs₀ [] :: l₂) =
          collectCandidates (XMLNode.element imageElementName attrs₀ []) ++
            collectCandidatesList l₂ := rfl
      rw [h2, hc, List.nil_append]
    have hcc : collectCandidates
        (XMLNode.element nm attrs
          (l₁ ++ XMLNode.element imageElementName attrs₀ [] :: l₂)) =
        collectCandidates (XMLNode.element nm attrs (l₁ ++ l₂)) := by
      have he : ∀ ch, collectCandidates (XMLNode.element nm attrs ch) =
          (if nm == imageElementName then
            match attrs.lookup imageSourceAttr with
            | some v => [v]
            | none => []
          else []) ++ collectCandidatesList ch := fun _ => rfl
      rw [he, he, hl]
    have hv : ∀ root, validateImagePaths fs document (some root) =
        (collectCandidates root).filterMap
          (fun raw =>
            if fs (resolvePath (docBaseDir document) raw) then none
            else some (imageDiagnostic document.text raw)) := fun _ => rfl
    rw [hv, hv, hcc]
  · decide

set_option maxRecDepth 40000 in
set_option maxHeartbeats 2000000 in
/-- Witness for C6: an attribute-less image element carries no source-path
attribute, and the incomplete-element test document validates to `[]`. -/
theorem incomplete_image_tolerance_witness :
    ([] : List (String × String)).lookup imageSourceAttr = none ∧
    validateImagePaths mockFs incompleteDoc (parseXMLString incompleteDoc) = [] :=
  ⟨rfl,
   (incomplete_image_tolerance mockFs incompleteDoc "content" [] [] [] [] rfl).2⟩

/-- C8: the publish gate branches on the diagnostic source tag — any cnxml
entry blocks pushing outright; with no cnxml entry but an xml entry, pushing
is allowed exactly when the user selects the ignore item; with neither entry
pushing is allowed. -/
theorem canPush_gate (errorsBySource : List String) (selectedItem : Option String) :
    (errorsBySource.contains DiagnosticSource.cnxml = true →
      canPush errorsBySource selectedItem = false) ∧
    (errorsBySource.contains DiagnosticSource.cnxml = false →
      errorsBySource.contains DiagnosticSource.xml = true →
      (canPush errorsBySource selectedItem = true ↔
        selectedItem = some PushValidationModal.xmlErrorIgnoreItem)) ∧
    (errorsBySource.contains DiagnosticSource.cnxml = false →
      errorsBySource.contains DiagnosticSource.xml = false →
      canPush errorsBySource selectedItem = true) := by
  refine ⟨fun h1 => ?_, fun h1 h2 => ?_, fun h1 h2 => ?_⟩
  · unfold canPush
    rw [h1]
    rfl
  · unfold canPush
    rw [h1, h2]
    simp
  · unfold canPush
    rw [h1, h2]
    rfl

/-- Witness for C8: an error map with a cnxml entry blocks the push. -/
theorem canPush_gate_witness :
    [DiagnosticSource.cnxml].contains DiagnosticSource.cnxml = true ∧
    canPush [DiagnosticSource.cnxml] none = false :=
  ⟨by decide, (canPush_gate [DiagnosticSource.cnxml] none).1 (by decide)⟩

/-- The tag-collecting loop returns `none` exactly when some walked ref points
at the head commit. -/
theorem collectTagNums_eq_none_iff (head : Ref) (l : List Ref) :
    collectTagNums head l = none ↔
      l.any (fun r => r.commit == head.commit) = true := by
  induction l with
  | nil => simp [collectTagNums]
  | cons r rs ih =>
    by_cases h : (r.commit == head.commit) = true
    · simp [collectTagNums, h]
    · simp only [Bool.not_eq_true] at h
      simp [collectTagNums, h, Option.map_eq_none', ih]

/-- When no walked ref points at the head commit, the loop collects every
ref's tag number in order. -/
theorem collectTagNums_eq_some (head : Ref) (l : List Ref)
    (h : ∀ r ∈ l, (r.commit == head.commit) = false) :
    collectTagNums head l = some (l.map tagRefNumber) := by
  induction l with
  | nil => rfl
  | cons r rs ih =>
    have h1 := h r (List.mem_cons_self r rs)
    have h2 : ∀ x ∈ rs, (x.commit == head.commit) = false :=
      fun x hx => h x (List.mem_cons_of_mem r hx)
    simp [collectTagNums, h1, ih h2]

/-- A left max-fold equals the max of the seed with the right max-fold. -/
theorem foldl_max_eq_max_foldr (l : List Nat) (a : Nat) :
    l.foldl Nat.max a = Nat.max a (l.foldr Nat.max 0) := by
  induction l generalizing a with
  | nil => simp [Nat.max_def]
  | cons x xs ih => simp [List.foldl_cons, List.foldr_cons, ih, Nat.max_assoc]

/-- The guarded `Math.max` of `getNewTag` is the right max-fold with zero
default. -/
theorem condFoldlMax_eq_foldr (tags : List Nat) :
    (if tags.length > 0 then tags.foldl Nat.max 0 else 0) =
      tags.foldr Nat.max 0 := by
  cases tags with
  | nil => rfl
  | cons x xs =>
    simp [foldl_max_eq_max_foldr, Nat.max_def]

/-- C9: `getNewTag` returns `undefined` exactly when some tag ref matching the
mode's pattern (digits for release, digits then `rc` for candidate) points at
the head commit; otherwise it returns one plus the maximum numeric value of
the matching tag names (zero when none match), with `rc` appended exactly in
candidate mode. -/
theorem getNewTag_characterization (refs : List Ref) (tagMode : Tag) (head : Ref) :
    getNewTag refs tagMode head =
      (if (validTagsOf refs (tagMode == Tag.release)).any
            (fun r => r.commit == head.commit) then none
       else
         some (toString
            (((validTagsOf refs (tagMode == Tag.release)).map tagRefNumber).foldr
              Nat.max 0 + 1) ++
          (if tagMode == Tag.candidate then "rc" else ""))) := by
  unfold getNewTag
  by_cases h : (validTagsOf refs (tagMode == Tag.release)).any
      (fun r => r.commit == head.commit) = true
  · have hn := (collectTagNums_eq_none_iff head
      (validTagsOf refs (tagMode == Tag.release))).mpr h
    simp [hn, h]
  · have hall : ∀ r ∈ validTagsOf refs (tagMode == Tag.release),
        (r.commit == head.commit) = false := by
      intro r hr
      by_cases hb : (r.commit == head.commit) = true
      · exact absurd (List.any_eq_true.mpr ⟨r, hr, hb⟩) h
      · simpa using hb
    have hs := collectTagNums_eq_some head
      (validTagsOf refs (tagMode == Tag.release)) hall
    simp only [Bool.not_eq_true] at h
    simp only [hs, h, Bool.false_eq_true, if_false]
    rw [condFoldlMax_eq_foldr]
    cases tagMode <;> rfl

/-- The commit `catch` block never invokes pull or push. -/
theorem commitCatch_no_pullPush (e : GitError) :
    (commitCatch e).any isPullOrPush = false := by
  unfold commitCatch
  cases e.stdout with
  | none => rfl
  | some out =>
    by_cases h : containsSubstr "nothing to commit" out = true <;>
      simp [h, isPullOrPush]

/-- C10: in every `_pushContent` run, pull and push happen only after the
commit completed without throwing — any pull or push in the trace forces a
successful commit outcome and a trace beginning with the staging and the
commit — and no pull or push occurs when no allowed content directory exists,
when the commit message is null, or when the commit throws. -/
theorem pushContent_commit_precedes_pullPush (rootPath : String)
    (dirExists : String → Bool) (commitMessage : Option String)
    (commitOutcome : GitOutcome) (head : Option Head)
    (pullOutcome pushOutcome : GitOutcome) :
    ((_pushContent rootPath dirExists commitMessage commitOutcome head
        pullOutcome pushOutcome).any isPullOrPush = true →
      commitOutcome = GitOutcome.ok ∧
      ∃ msg rest, commitMessage = some msg ∧
        _pushContent rootPath dirExists commitMessage commitOutcome head
            pullOutcome pushOutcome =
          GitEvent.gitAdd
              ((AllowedContentDirs.map (pathJoin rootPath)).filter dirExists) ::
            GitEvent.commit msg :: rest) ∧
    (((AllowedContentDirs.map (pathJoin rootPath)).filter dirExists).length = 0 →
      (_pushContent rootPath dirExists commitMessage commitOutcome head
        pullOutcome pushOutcome).any isPullOrPush = false) ∧
    (commitMessage = none →
      (_pushContent rootPath dirExists commitMessage commitOutcome head
        pullOutcome pushOutcome).any isPullOrPush = false) ∧
    (commitOutcome ≠ GitOutcome.ok →
      (_pushContent rootPath dirExists commitMessage commitOutcome head
        pullOutcome pushOutcome).any isPullOrPush = false) := by
  unfold _pushContent
  by_cases hd : (((AllowedContentDirs.map (pathJoin rootPath)).filter dirExists).length
      == 0) = true
  · simp [hd, isPullOrPush]
  · simp only [Bool.not_eq_true] at hd
    cases commitMessage with
    | none => simp [hd, isPullOrPush]
    | some msg =>
      cases commitOutcome with
      | ok =>
        refine ⟨fun _ => ⟨rfl, msg, afterCommit head pullOutcome pushOutcome, rfl, ?_⟩,
          fun hlen => ?_, fun hnone => ?_, fun hne => ?_⟩
        · simp [hd]
        · exact absurd hlen (by simpa [Nat.beq_eq] using hd)
        · exact absurd hnone (by simp)
        · exact absurd rfl hne
      | err e =>
        refine ⟨fun hany => ?_, fun hlen => ?_, fun hnone => ?_, fun _ => ?_⟩
        · exact absurd hany (by simp [hd, isPullOrPush, commitCatch_no_pullPush e])
        · exact absurd hlen (by simpa [Nat.beq_eq] using hd)
        · exact absurd hnone (by simp)
        · simp [hd, isPullOrPush, commitCatch_no_pullPush e]

/-- Witness for C10: a fully successful run with an upstream does pull, and
its commit outcome is the successful one. -/
theorem pushContent_commit_precedes_pullPush_witness :
    (_pushContent "/repo" (fun _ => true) (some "stuff") GitOutcome.ok
        (some ⟨some "main", some ()⟩) GitOutcome.ok GitOutcome.ok).any
      isPullOrPush = true ∧
    GitOutcome.ok = GitOutcome.ok :=
  ⟨by decide,
   ((pushContent_commit_precedes_pullPush "/repo" (fun _ => true) (some "stuff")
      GitOutcome.ok (some ⟨some "main", some ()⟩) GitOutcome.ok
      GitOutcome.ok).1 (by decide)).1⟩

/-- Witness for C4 at the failure sentinel. -/
theorem validateImagePaths_nil_iff_witness :
    validateImagePaths mockFs emptyContentDoc none = [] :=
  (validateImagePaths_nil_iff mockFs emptyContentDoc none).mpr (Or.inl rfl)

/-- Witness for C5 at a one-candidate tree. -/
theorem validateImagePaths_order_preservation_witness :
    validateImagePaths mockFs emptyContentDoc
        (some (XMLNode.element "image" [("src", "x.png")] [])) =
      ((collectCandidates (XMLNode.element "image" [("src", "x.png")] [])).filter
        (fun raw => !mockFs (resolvePath (docBaseDir emptyContentDoc) raw))).map
        (imageDiagnostic emptyContentDoc.text) ∧
    (validateImagePaths mockFs emptyContentDoc
        (some (XMLNode.element "image" [("src", "x.png")] []))).length =
      ((collectCandidates (XMLNode.element "image" [("src", "x.png")] [])).filter
        (fun raw => !mockFs (resolvePath (docBaseDir emptyContentDoc) raw))).length :=
  validateImagePaths_order_preservation mockFs emptyContentDoc
    (XMLNode.element "image" [("src", "x.png")] [])

/-- Witness for C9 on an empty ref list in release mode. -/
theorem getNewTag_characterization_witness :
    getNewTag [] Tag.release ⟨RefType.head, some "main", some "h"⟩ =
      (if (validTagsOf [] (Tag.release == Tag.release)).any
            (fun r =>
              r.commit == (⟨RefType.head, some "main", some "h"⟩ : Ref).commit) then
        none
       else
         some (toString
            (((validTagsOf [] (Tag.release == Tag.release)).map tagRefNumber).foldr
              Nat.max 0 + 1) ++
          (if Tag.release == Tag.candidate then "rc" else ""))) :=
  getNewTag_characterization [] Tag.release ⟨RefType.head, some "main", some "h"⟩

end Poet
